import Mathlib

/-!
# kln-test: worker pool, retry executor and holiday service

A shallow embedding of `internal/worker/pool.go`, `internal/config/config.go`,
`internal/holidays/holidays.go` and `internal/handlers/holidays_fetcher.go`,
followed by the properties proved about it.

Conventions.

* Go `int` and `time.Duration` values are integers (`Int`); every `Duration`
  product is reduced with `wrap64`, the two's-complement wrap of a signed
  64-bit multiplication.
* A `time.Duration` counts nanoseconds, `time.Second = 1000000000`.
* `log.Printf` calls have no effect on the state and are left out, except that
  the two terminal reports of the retry executor appear in its trace.
-/

namespace KlnTest

/-! ## internal/config/config.go -/

/-- The struct `WorkerRetryConfig`. -/
structure WorkerRetryConfig where
  MaxAttempts : Int
  InitialTimeout : Int
  MaxTimeout : Int
  deriving DecidableEq, Repr

/-- The struct `WorkerConfig`. -/
structure WorkerConfig where
  PoolSize : Int
  QueueSize : Int
  Retry : WorkerRetryConfig
  deriving DecidableEq, Repr

/-! ## Durations -/

/-- Two's-complement reduction of an integer to the signed 64-bit range. -/
def wrap64 (x : Int) : Int := (x + 2 ^ 63) % 2 ^ 64 - 2 ^ 63

/-- The constant `time.Second`, in nanoseconds. -/
def Second : Int := 1000000000

/-- `time.Duration(n) * time.Second` for a configured number of seconds `n`. -/
def seconds (n : Int) : Int := wrap64 (n * Second)

/-- `time.Duration(math.Pow(2, float64(e)))`.  For `e ≤ 62` the power is an
exact `float64` and the conversion is exact.  For `e ≥ 63` the value does not
fit an `int64` and Go leaves the result of the conversion to the
implementation: `ovf e` stands for it. -/
def pow2Duration (ovf : Nat → Int) (e : Nat) : Int :=
  if e ≤ 62 then 2 ^ e else wrap64 (ovf e)

/-! ## internal/worker/pool.go: the retry executor -/

/-- How one attempt ends: `job.Process` returns `nil`, returns an error, or
the attempt's context expires first. -/
inductive Outcome where
  | success
  | failure
  | timedOut
  deriving DecidableEq, Repr

/-- What `processJobWithRetry` does, in order: an attempt started under
`context.WithTimeout(_, timeout)`, a `time.Sleep`, and the two terminal
reports. -/
inductive Event where
  | attempt (n : Nat) (timeout : Int)
  | sleep (d : Int)
  | succeeded
  | gaveUp
  deriving DecidableEq, Repr

/-- Lines 159-164: the timeout after attempt `attempt`, from the timeout that
attempt ran under. -/
def nextTimeout (ovf : Nat → Int) (maxTimeOut timeout : Int) (attempt : Nat) : Int :=
  let backoffTime := wrap64 (timeout * pow2Duration ovf (attempt - 1))
  if backoffTime > maxTimeOut then maxTimeOut else backoffTime

/-- The `for attempt := 1; attempt <= retry.MaxAttempts; attempt++` loop of
`processJobWithRetry`, entered at `attempt` with the current `timeout`.
`outcomes k` is how attempt `k` ends.  The first argument bounds the number of
iterations; `none` means the bound was reached. -/
def retryLoop (ovf : Nat → Int) (outcomes : Nat → Outcome) (maxAttempts maxTimeOut : Int) :
    Nat → Nat → Int → Option (List Event)
  | 0, _, _ => none
  | fuel + 1, attempt, timeout =>
    if (attempt : Int) ≤ maxAttempts then
      match outcomes attempt with
      | Outcome.success => some [Event.attempt attempt timeout, Event.succeeded]
      | _ =>
        let timeout' := nextTimeout ovf maxTimeOut timeout attempt
        if (attempt : Int) = maxAttempts then
          some [Event.attempt attempt timeout, Event.gaveUp]
        else
          (retryLoop ovf outcomes maxAttempts maxTimeOut fuel (attempt + 1) timeout').map
            (fun rest => Event.attempt attempt timeout :: Event.sleep timeout' :: rest)
    else some []

/-- The method `Pool.processJobWithRetry` for a job whose attempts end as
`outcomes` says, under the retry policy `retry` read from the configuration. -/
def processJobWithRetry (ovf : Nat → Int) (retry : WorkerRetryConfig)
    (outcomes : Nat → Outcome) : Option (List Event) :=
  let timeout := seconds retry.InitialTimeout
  let maxTimeOut := seconds retry.MaxTimeout
  retryLoop ovf outcomes retry.MaxAttempts maxTimeOut (retry.MaxAttempts.toNat + 1) 1 timeout

/-- The timeouts of the attempts of a trace, in order. -/
def attemptTimeouts : List Event → List Int
  | [] => []
  | Event.attempt _ t :: rest => t :: attemptTimeouts rest
  | _ :: rest => attemptTimeouts rest

/-- The durations of the sleeps of a trace, in order. -/
def sleepDurations : List Event → List Int
  | [] => []
  | Event.sleep d :: rest => d :: sleepDurations rest
  | _ :: rest => sleepDurations rest

/-- The time a trace waits in total when every attempt runs to its deadline:
attempt deadlines plus sleeps. -/
def totalWait (trace : List Event) : Int :=
  (attemptTimeouts trace).sum + (sleepDurations trace).sum

/-- An action that fails on every attempt. -/
def alwaysFails : Nat → Outcome := fun _ => Outcome.failure

/-- An action that never returns: every attempt runs into its deadline. -/
def neverReturns : Nat → Outcome := fun _ => Outcome.timedOut

/-! ## internal/worker/pool.go: the pool

The pool is modelled by the fields of `Pool[T]` and by the goroutines it has
started.  A method call is one step.  What the scheduler decides inside a
step is an argument of the step: how many queued jobs the workers still
receive while `Shutdown` waits for them (`taken`), whether the caller of
`Shutdown` holds `p.mu` (`locked`), whether a worker is parked in its receive
when `Submit` tries to send (`parked`).  The test of `scalePoolIfNeeded` and
its locked section, and the send of `Submit`, are steps of their own as well,
so that a caller can reach them in a state other than the one it tested.
A call that does not return normally gives a `Fault`.  What the machine
allows is an argument too, the `Machine`; beyond it, memory is not bounded. -/

/-- The run-time panics the pool's channel operations can raise. -/
inductive Panic where
  | sendOnClosedChannel
  | closeOfClosedChannel
  | makechanSizeOutOfRange
  deriving DecidableEq, Repr

/-- How a call fails to return normally: it panics, it blocks for ever, or
the runtime ends the program with `fatal error: out of memory`. -/
inductive Fault where
  | panic (p : Panic)
  | deadlock
  | outOfMemory
  deriving DecidableEq, Repr

/-- What the machine allows.  `maxCap` is the largest size for which
`make(chan Job[T], n)` returns: for a larger size it panics with `makechan:
size out of range`, as it does for a negative one (where the machine runs out
of memory below that limit of the runtime, the fault is a fatal error, which
the model does not tell apart from the panic).  `maxWorkers` is the largest
number of worker goroutines one `Start` can start before the machine runs out
of memory. -/
structure Machine where
  maxCap : Nat
  maxWorkers : Nat
  deriving DecidableEq, Repr

/-- A buffered channel `chan Job[T]`: its capacity, the buffered elements,
oldest first (a receive takes the head, a send appends at the tail), and
whether it has been closed. -/
structure Chan (α : Type) where
  cap : Nat
  buf : List α
  closed : Bool
  deriving DecidableEq, Repr

/-- The struct `Pool[T]` together with its goroutines.

* `workers`, `jobs`, `cfg` are the fields of that name; `cfg` is the worker
  section of the shared `*config.Config` as `GetWorkerConfig` returns it now.
* `ctx` identifies the context in `p.ctx`: contexts are numbered in the order
  `Start` creates them, `0` is the nil context of a pool not yet started;
  `cancelled` lists the contexts whose `cancelFunc` has been called.
* `wg` is the counter of `p.wg`: the worker goroutines that have not exited.
* `watchers` holds one entry per live `watchConfig` goroutine: the context
  whose `Done()` channel its `select` is waiting on.
* `held` lists the jobs a worker has received from the queue (line 115) and
  not yet taken past `p.mu.RLock()` (line 125).
* `running` counts the workers inside `processJobWithRetry` past its lock.
* `started` lists the jobs that got past that lock, in order: the jobs that
  are executed. -/
structure Pool (α : Type) where
  workers : Int
  jobs : Chan α
  wg : Nat
  cfg : WorkerConfig
  ctx : Nat
  cancelled : List Nat
  watchers : List Nat
  held : List α
  running : Nat
  started : List α
  deriving DecidableEq, Repr

/-- The method `Pool.Start`.  A fresh context becomes `p.ctx`, the worker count
is taken from the configuration, `make(chan Job[T], QueueSize)` creates the
queue, one worker goroutine is started for each `i` with `0 ≤ i < p.workers`,
and one `watchConfig` goroutine is started.  `make` panics on a negative size
and on a size above `m.maxCap`; the loop runs out of memory when it has more
than `m.maxWorkers` goroutines to start. -/
def Start {α : Type} (m : Machine) (p : Pool α) : Except Fault (Pool α) :=
  let ctx := p.ctx + 1
  let workerConfig := p.cfg
  let p1 := { p with workers := workerConfig.PoolSize, ctx := ctx }
  if workerConfig.QueueSize < 0 ∨ (m.maxCap : Int) < workerConfig.QueueSize then
    Except.error (Fault.panic Panic.makechanSizeOutOfRange)
  else
    let p2 := { p1 with jobs := { cap := workerConfig.QueueSize.toNat, buf := [], closed := false } }
    if (m.maxWorkers : Int) < p2.workers then Except.error Fault.outOfMemory
    else
      let p3 := { p2 with wg := p2.wg + p2.workers.toNat }
      Except.ok { p3 with watchers := p3.watchers ++ [ctx] }

/-- The jobs the workers still receive from the queue while `Shutdown` runs:
once the context is cancelled both cases of the `select` of `startWorker` are
ready, and a receive from a closed channel yields its buffered jobs first.
`taken` is how many times a worker chooses the receive before all have
returned; without a live worker there is none. -/
def takenOnExit {α : Type} (p : Pool α) (taken : Nat) : List α :=
  if p.wg = 0 then [] else p.jobs.buf.take taken

/-- The method `Pool.Shutdown`, called by a goroutine that holds `p.mu` when
`locked` is true.  `p.cancelFunc()` cancels the current context, on which
every `watchConfig` goroutine waiting for it returns; `close(p.jobs)` panics
when the queue is closed already; `p.wg.Wait()` returns once every worker has
exited.  Until then the workers that hold a job, and those that still receive
one from the queue, call `processJobWithRetry`: its `p.mu.RLock()` blocks for
ever when the caller holds `p.mu`, and `Wait` with it; otherwise these jobs
are executed. -/
def Shutdown {α : Type} (locked : Bool) (taken : Nat) (p : Pool α) : Except Fault (Pool α) :=
  let p1 := { p with cancelled := p.ctx :: p.cancelled,
                     watchers := p.watchers.filter (fun c => c ≠ p.ctx) }
  if p1.jobs.closed then Except.error (Fault.panic Panic.closeOfClosedChannel)
  else
    let p2 := { p1 with jobs := { p1.jobs with closed := true } }
    let late := takenOnExit p2 taken
    if locked = true ∧ 0 < p2.held.length + late.length then Except.error Fault.deadlock
    else
      Except.ok { p2 with jobs := { p2.jobs with buf := p2.jobs.buf.drop late.length },
                          started := p2.started ++ p2.held ++ late,
                          held := [], running := 0, wg := 0 }

/-- Lines 62-67, the locked section of `scalePoolIfNeeded`: `p.mu.Lock()`,
`p.Shutdown()`, `p.Start()`, and the deferred `p.mu.Unlock()`. -/
def resize {α : Type} (m : Machine) (taken : Nat) (p : Pool α) : Except Fault (Pool α) :=
  (Shutdown true taken p).bind (Start m)

/-- The method `Pool.scalePoolIfNeeded`, its test and its locked section run
in one state. -/
def scalePoolIfNeeded {α : Type} (m : Machine) (taken : Nat) (p : Pool α) : Except Fault (Pool α) :=
  let workerConfig := p.cfg
  if workerConfig.QueueSize ≠ (p.jobs.cap : Int) ∨ workerConfig.PoolSize ≠ p.workers then
    resize m taken p
  else Except.ok p

/-- Lines 75-80, the `select` of `Submit`: the error it returns (`none` for
`nil`) and the pool afterwards.  The `select` with a `default` branch is a
non-blocking send: it panics on a closed channel and appends to a buffer that
has room; on an unbuffered channel it hands the job to a worker parked in its
receive, if there is one; otherwise it takes the `default` branch. -/
def send {α : Type} (parked : Bool) (p : Pool α) (job : α) :
    Except Fault (Option String × Pool α) :=
  if p.jobs.closed then Except.error (Fault.panic Panic.sendOnClosedChannel)
  else if p.jobs.buf.length < p.jobs.cap then
    Except.ok (none, { p with jobs := { p.jobs with buf := p.jobs.buf ++ [job] } })
  else if p.jobs.cap = 0 ∧ parked = true ∧ p.held.length + p.running < p.wg then
    Except.ok (none, { p with held := p.held ++ [job] })
  else Except.ok (some "job queue is full", p)

/-- The method `Pool.Submit`, its `scalePoolIfNeeded` and its send run in one
state. -/
def Submit {α : Type} (m : Machine) (taken : Nat) (parked : Bool) (p : Pool α) (job : α) :
    Except Fault (Option String × Pool α) :=
  (scalePoolIfNeeded m taken p).bind fun p1 => send parked p1 job

/-- The value `&Pool[T]{cfg: cfg}`: every other field is zero. -/
def zeroPool {α : Type} (cfg : WorkerConfig) : Pool α :=
  { workers := 0, jobs := { cap := 0, buf := [], closed := false }, wg := 0, cfg := cfg,
    ctx := 0, cancelled := [], watchers := [], held := [], running := 0, started := [] }

/-- The function `NewPool`: the zero pool with `cfg` set, then `Start`. -/
def NewPool {α : Type} (m : Machine) (cfg : WorkerConfig) : Except Fault (Pool α) :=
  Start m (zeroPool cfg)

/-- One iteration of `startWorker` that takes `case job, ok := <-p.jobs` with a
job: a worker that has no job receives the oldest queued one.  Without such a
worker or without a queued job nothing happens. -/
def receive {α : Type} (p : Pool α) : Pool α :=
  if p.held.length + p.running < p.wg then
    match p.jobs.buf with
    | [] => p
    | job :: rest => { p with jobs := { p.jobs with buf := rest }, held := p.held ++ [job] }
  else p

/-- Lines 125-127: the worker holding the job at position `i` of `held` takes
and releases `p.mu.RLock()` and goes on to execute the job. -/
def beginJob {α : Type} (p : Pool α) (i : Nat) : Pool α :=
  match p.held.get? i with
  | none => p
  | some job =>
    { p with held := p.held.eraseIdx i, started := p.started ++ [job], running := p.running + 1 }

/-- A worker returns from `processJobWithRetry`. -/
def finishJob {α : Type} (p : Pool α) : Pool α :=
  { p with running := p.running - 1 }

/-- One firing of `ticker.C` in the `watchConfig` goroutine at position `i` of
`watchers`: the goroutine leaves its `select`, calls `scalePoolIfNeeded`, and
enters the `select` again, which evaluates `p.ctx.Done()` afresh. -/
def tick {α : Type} (m : Machine) (taken : Nat) (p : Pool α) (i : Nat) : Except Fault (Pool α) :=
  match p.watchers.get? i with
  | none => Except.ok p
  | some _ =>
    (scalePoolIfNeeded m taken { p with watchers := p.watchers.eraseIdx i }).bind fun p1 =>
      Except.ok { p1 with watchers := p1.watchers ++ [p1.ctx] }

/-- A reload of the configuration file: `Config.Reload` replaces the worker
section the pool reads. -/
def setConfig {α : Type} (p : Pool α) (cfg : WorkerConfig) : Pool α :=
  { p with cfg := cfg }

/-- What can happen to a pool, with what the scheduler decides in it: a timer
tick of one of its `watchConfig` goroutines, a `Submit` call, a change of the
configuration, the steps of a worker, and the two late steps: the locked
section of a `scalePoolIfNeeded` call whose test goes back to an earlier state,
and the send of a `Submit` call whose `scalePoolIfNeeded` does. -/
inductive Op (α : Type) where
  | tick (i : Nat) (taken : Nat)
  | submit (job : α) (taken : Nat) (parked : Bool)
  | config (cfg : WorkerConfig)
  | receive
  | beginJob (i : Nat)
  | finishJob
  | resize (taken : Nat)
  | send (job : α) (parked : Bool)

/-- One operation on the pool. -/
def step {α : Type} (m : Machine) (p : Pool α) : Op α → Except Fault (Pool α)
  | Op.tick i taken => tick m taken p i
  | Op.submit job taken parked => (Submit m taken parked p job).map Prod.snd
  | Op.config cfg => Except.ok (setConfig p cfg)
  | Op.receive => Except.ok (receive p)
  | Op.beginJob i => Except.ok (beginJob p i)
  | Op.finishJob => Except.ok (finishJob p)
  | Op.resize taken => resize m taken p
  | Op.send job parked => (send parked p job).map Prod.snd

/-- The jobs a sequence of operations submits. -/
def submitted {α : Type} : List (Op α) → List α
  | [] => []
  | Op.submit job _ _ :: ops => job :: submitted ops
  | Op.send job _ :: ops => job :: submitted ops
  | _ :: ops => submitted ops

/-- A sequence of operations, stopping at the first fault. -/
def run {α : Type} (m : Machine) (p : Pool α) : List (Op α) → Except Fault (Pool α)
  | [] => Except.ok p
  | op :: ops => (step m p op).bind fun p1 => run m p1 ops

/-- A pool is running when its queue has not been closed. -/
def Running {α : Type} (p : Pool α) : Prop := p.jobs.closed = false

/-- No drift: the configuration agrees with the live generation. -/
def NoDrift {α : Type} (p : Pool α) : Prop :=
  p.cfg.QueueSize = (p.jobs.cap : Int) ∧ p.cfg.PoolSize = p.workers

instance {α : Type} (p : Pool α) : Decidable (Running p) := by
  unfold Running; infer_instance

instance {α : Type} (p : Pool α) : Decidable (NoDrift p) := by
  unfold NoDrift; infer_instance

/-- The value of the `timeout` variable when attempt `i + 1` starts, after
attempts `1..i` all ended without success. -/
def timeoutSeq (ovf : Nat → Int) (maxTimeOut t0 : Int) : Nat → Int
  | 0 => t0
  | i + 1 => nextTimeout ovf maxTimeOut (timeoutSeq ovf maxTimeOut t0 i) (i + 1)

/-- The trace of a run that enters the loop at attempt `a`, ends at attempt
`s` with the report `final`, and sleeps after every attempt before `s`; `T`
gives the timeouts as `timeoutSeq` does. -/
def scheduleUpTo (T : Nat → Int) (a s : Nat) (final : Event) : List Event :=
  (List.range' a (s - a)).flatMap (fun k => [Event.attempt k (T (k - 1)), Event.sleep (T k)])
    ++ [Event.attempt s (T (s - 1)), final]

/-- The report that ends a run whose last attempt is `s`. -/
def finalReport (outcomes : Nat → Outcome) (s : Nat) : Event :=
  if outcomes s = Outcome.success then Event.succeeded else Event.gaveUp

/-- The closed form the specification gives for the timeout of attempt `k`. -/
def claimedTimeout (retry : WorkerRetryConfig) (k : Nat) : Int :=
  if k = 1 then retry.InitialTimeout * Second
  else min (retry.MaxTimeout * Second) (retry.InitialTimeout * Second * 2 ^ (k - 2))

/-- A retry policy used in the examples: three attempts, 1s to 2s. -/
def sampleRetry : WorkerRetryConfig := { MaxAttempts := 3, InitialTimeout := 1, MaxTimeout := 2 }

/-- A configuration used in the examples: one worker, a queue of one job. -/
def sampleConfig : WorkerConfig := { PoolSize := 1, QueueSize := 1, Retry := sampleRetry }

/-- The pool `NewPool(sampleConfig)` returns, with jobs of type `Nat`. -/
def samplePool : Pool Nat :=
  { workers := 1, jobs := { cap := 1, buf := [], closed := false }, wg := 1, cfg := sampleConfig,
    ctx := 1, cancelled := [], watchers := [1], held := [], running := 0, started := [] }

/-- A machine used in the examples: queues of up to `2^40` jobs, up to `2^20`
workers. -/
def sampleMachine : Machine := { maxCap := 2 ^ 40, maxWorkers := 2 ^ 20 }

/-! ## internal/holidays/holidays.go -/

/-- The struct `Holiday`. -/
structure Holiday where
  Date : String
  LocalName : String
  Name : String
  CountryCode : String
  Fixed : Bool
  Global : Bool
  Counties : List String
  LaunchYear : Option Int
  Type_ : List String
  deriving DecidableEq, Repr

/-- The struct `CountryResult`; a nil slice is the empty list. -/
structure CountryResult where
  CountryCode : String
  Holidays : List Holiday
  Error : String
  deriving DecidableEq, Repr

/-- The interface `Client`: `GetHolidays(ctx, year, countryCode)` returns the
holidays and the error, given here by its message `err.Error()`, `none` for a
nil error. -/
abbrev Client := Int → String → List Holiday × Option String

/-- The zero `CountryResult`, which `make([]CountryResult, n)` fills with. -/
def zeroResult : CountryResult := { CountryCode := "", Holidays := [], Error := "" }

/-- The body of the goroutine started for `(index, code)`: it calls the client
and writes `results[index]`. -/
def fetchCountry (client : Client) (year : Int) (results : List CountryResult)
    (index : Nat) (code : String) : List CountryResult :=
  let (holidays, err) := client year code
  let results := results.set index { CountryCode := code, Holidays := [], Error := "" }
  match err with
  | some msg => results.set index { CountryCode := code, Holidays := [], Error := msg }
  | none => results.set index { CountryCode := code, Holidays := holidays, Error := "" }

/-- The method `HolidayService.GetHolidaysForCountries`.  One goroutine is
started for each pair of `range countryCodes`; `order` lists the pairs in the
order the goroutines run, and `wg.Wait()` returns when all have run. -/
def GetHolidaysForCountries (client : Client) (year : Int) (countryCodes : List String)
    (order : List (Nat × String)) : List CountryResult :=
  let results := List.replicate countryCodes.length zeroResult
  order.foldl (fun results ic => fetchCountry client year results ic.1 ic.2) results

/-- A client that knows the holidays of `"CA"` and fails with the message
`"unknown country"` for every other code. -/
def sampleClient : Client := fun _ code =>
  if code = "CA" then
    ([{ Date := "2025-01-01", LocalName := "New Year", Name := "New Year", CountryCode := "CA",
        Fixed := false, Global := false, Counties := [], LaunchYear := none, Type_ := [] }], none)
  else ([], some "unknown country")

/-- A service used in the examples: `HolidayService` over `sampleClient`, its
goroutines running in the order of `countryCodes`. -/
def sampleService : Int → List String → List CountryResult := fun year countryCodes =>
  GetHolidaysForCountries sampleClient year countryCodes countryCodes.enum

/-! ## internal/handlers/holidays_fetcher.go

The handler is modelled on what it reads of the request, the method and the
parsed query, and on what it writes: the status code and the body, before JSON
encoding.  A Go string is a Lean `String`, so query values are valid UTF-8.
`strconv.Atoi` and the tags of the `validator` package are library code,
modelled after their documented behaviour. -/

/-- The part of an `*http.Request` that `ServeHTTP` reads: the method and the
values `r.URL.Query()` parses, as key-value pairs in the order of the URL. -/
structure Request where
  Method : String
  Query : List (String × String)
  deriving DecidableEq, Repr

/-- The slice `r.URL.Query()[key]`: the values given for `key`, in order. -/
def queryValues (r : Request) (key : String) : List String :=
  (r.Query.filter (fun kv => kv.1 = key)).map Prod.snd

/-- The call `r.URL.Query().Get(key)`: the first value given for `key`, the
empty string when there is none. -/
def queryGet (r : Request) (key : String) : String :=
  (queryValues r key).headD ""

/-- The digit loop of `strconv`: the value of a string of ASCII digits read
after the value `n`, `none` at any other character. -/
def parseDigits : List Char → Nat → Option Nat
  | [], n => some n
  | ch :: rest, n =>
    if ch.isDigit then parseDigits rest (n * 10 + (ch.toNat - 48)) else none

/-- The function `strconv.Atoi` with a 64-bit `int`; `none` stands for a
non-nil error.  It accepts an optional sign followed by one or more ASCII
digits, and fails with a range error when the value does not fit the `int`. -/
def Atoi (s : String) : Option Int :=
  match s.toList with
  | [] => none
  | ch :: rest =>
    let digits := if ch = '-' ∨ ch = '+' then rest else ch :: rest
    if digits = [] then none
    else
      match parseDigits digits 0 with
      | none => none
      | some n =>
        let v : Int := if ch = '-' then -(n : Int) else (n : Int)
        if -2 ^ 63 ≤ v ∧ v < 2 ^ 63 then some v else none

/-- The struct `HolidaysRequest`. -/
structure HolidaysRequest where
  Year : Int
  Countries : List String
  deriving DecidableEq, Repr

/-- The tags `required,min=1900,max=2100` on the `int` field `Year`: the value
is not zero and lies between the bounds. -/
def validYear (year : Int) : Bool :=
  decide (year ≠ 0) && decide (1900 ≤ year) && decide (year ≤ 2100)

/-- The tags `required,len=2` that `dive` applies to each country: the string
is not empty and has exactly two runes. -/
def validCountry (country : String) : Bool :=
  decide (country ≠ "") && decide (country.length = 2)

/-- The tags `required,min=1,dive,required,len=2` on the slice `Countries`: it
has at least one element and every element is valid. -/
def validCountries (countries : List String) : Bool :=
  decide (1 ≤ countries.length) && countries.all validCountry

/-- The call `h.validator.Struct(req)`: `true` when it returns no error. -/
def validateStruct (req : HolidaysRequest) : Bool :=
  validYear req.Year && validCountries req.Countries

/-- What the handler writes as body: the text of an `http.Error`, the map
with the keys `error` and `details`, or a `HolidaysResponse`. -/
inductive Body where
  | text (msg : String)
  | validationFailed
  | holidays (Year : Int) (Results : List CountryResult)
  deriving DecidableEq, Repr

/-- The response of the handler, and the call it made to the service, if any:
the year and the country codes passed to `GetHolidaysForCountries`. -/
structure Response where
  status : Nat
  body : Body
  serviceCall : Option (Int × List String)
  deriving DecidableEq, Repr

/-- The method `HolidaysFetchHandler.ServeHTTP`, over the method
`GetHolidaysForCountries` of the handler's service. -/
def ServeHTTP (service : Int → List String → List CountryResult) (r : Request) : Response :=
  if r.Method ≠ "GET" then
    { status := 405, body := Body.text "Method not allowed", serviceCall := none }
  else
    let yearStr := queryGet r "year"
    match Atoi yearStr with
    | none => { status := 400, body := Body.text "Invalid year parameter", serviceCall := none }
    | some year =>
      let countries := queryValues r "country"
      if countries.length = 0 then
        { status := 400, body := Body.text "At least one country parameter is required",
          serviceCall := none }
      else
        let req : HolidaysRequest := { Year := year, Countries := countries }
        if validateStruct req = false then
          { status := 422, body := Body.validationFailed, serviceCall := none }
        else
          let results := service year countries
          { status := 200, body := Body.holidays year results,
            serviceCall := some (year, countries) }

/-- A decimal integer in the words of the specification, whatever its size: an
optional sign followed by one or more digits; `decimalValue` is its value, and
`none` when the string is not a decimal integer. -/
def decimalValue (s : String) : Option Int :=
  match s.toList with
  | [] => none
  | ch :: rest =>
    let digits := if ch = '-' ∨ ch = '+' then rest else ch :: rest
    if digits = [] then none
    else (parseDigits digits 0).map (fun (n : Nat) => if ch = '-' then -(n : Int) else (n : Int))

/-- The values of a 64-bit `int`. -/
def fitsInt (v : Int) : Prop := -2 ^ 63 ≤ v ∧ v < 2 ^ 63

instance (v : Int) : Decidable (fitsInt v) := by
  unfold fitsInt; infer_instance

/-! ## Lemmas on the retry executor -/

theorem scheduleUpTo_step (T : Nat → Int) (a s : Nat) (final : Event) (h : a < s) :
    scheduleUpTo T a s final =
      Event.attempt a (T (a - 1)) :: Event.sleep (T a) :: scheduleUpTo T (a + 1) s final := by
  unfold scheduleUpTo
  obtain ⟨d, hd⟩ : ∃ d, s - a = d + 1 := ⟨s - a - 1, by omega⟩
  have hd2 : s - (a + 1) = d := by omega
  rw [hd, hd2, List.range'_succ]
  simp

theorem scheduleUpTo_self (T : Nat → Int) (s : Nat) (final : Event) :
    scheduleUpTo T s s final = [Event.attempt s (T (s - 1)), final] := by
  simp [scheduleUpTo]

/-- The loop, entered at attempt `a` with the timeout of that attempt, runs the
attempts `a..s` when `s` is the first attempt that succeeds or the last one
allowed, and returns. -/
theorem retryLoop_eq (ovf : Nat → Int) (outcomes : Nat → Outcome) (N : Nat) (M t0 : Int)
    (s : Nat) (hs : s ≤ N) (hstop : outcomes s = Outcome.success ∨ s = N) :
    ∀ (fuel a : Nat), 1 ≤ a → a ≤ s → s - a < fuel →
      (∀ j, a ≤ j → j < s → outcomes j ≠ Outcome.success) →
      retryLoop ovf outcomes (N : Int) M fuel a (timeoutSeq ovf M t0 (a - 1)) =
        some (scheduleUpTo (timeoutSeq ovf M t0) a s (finalReport outcomes s)) := by
  intro fuel
  induction fuel with
  | zero => intro a _ _ h; omega
  | succ fuel ih =>
    intro a ha has hf hno
    obtain ⟨b, rfl⟩ : ∃ b, a = b + 1 := ⟨a - 1, by omega⟩
    have hle : ((b + 1 : Nat) : Int) ≤ (N : Int) := by exact_mod_cast (le_trans has hs)
    rcases Nat.lt_or_ge (b + 1) s with hlt | hge
    · have h1 : outcomes (b + 1) ≠ Outcome.success := hno (b + 1) le_rfl hlt
      have h3 : ¬ (((b + 1 : Nat) : Int) = (N : Int)) := by
        intro h; have : b + 1 = N := by exact_mod_cast h
        omega
      have hrec := ih (b + 1 + 1) (by omega) (by omega) (by omega)
        (fun j hj hjs => hno j (by omega) hjs)
      have hT : timeoutSeq ovf M t0 (b + 1 + 1 - 1) =
          nextTimeout ovf M (timeoutSeq ovf M t0 (b + 1 - 1)) (b + 1) := by
        simp [timeoutSeq]
      rw [hT] at hrec
      rw [scheduleUpTo_step _ _ _ _ hlt]
      unfold retryLoop
      rw [if_pos hle]
      cases ho : outcomes (b + 1) with
      | success => exact absurd ho h1
      | failure => simp only [if_neg h3, hrec, Option.map_some']; simp [timeoutSeq]
      | timedOut => simp only [if_neg h3, hrec, Option.map_some']; simp [timeoutSeq]
    · have hsa : s = b + 1 := by omega
      subst hsa
      rw [scheduleUpTo_self]
      unfold retryLoop
      rw [if_pos hle]
      cases ho : outcomes (b + 1) with
      | success => simp [finalReport, ho]
      | failure =>
        have hN : b + 1 = N := by
          rcases hstop with h | h
          · rw [ho] at h; cases h
          · exact h
        have hN2 : ((b + 1 : Nat) : Int) = (N : Int) := by exact_mod_cast hN
        simp only [finalReport, ho]
        rw [if_pos hN2]
        simp
      | timedOut =>
        have hN : b + 1 = N := by
          rcases hstop with h | h
          · rw [ho] at h; cases h
          · exact h
        have hN2 : ((b + 1 : Nat) : Int) = (N : Int) := by exact_mod_cast hN
        simp only [finalReport, ho]
        rw [if_pos hN2]
        simp

/-- The method returns for every policy and every job: with no attempt allowed
it does nothing, otherwise it runs the attempts `1..s` of `retryLoop_eq`. -/
theorem processJobWithRetry_eq (ovf : Nat → Int) (retry : WorkerRetryConfig)
    (outcomes : Nat → Outcome) (s : Nat) (h1 : 1 ≤ s) (hs : (s : Int) ≤ retry.MaxAttempts)
    (hstop : outcomes s = Outcome.success ∨ (s : Int) = retry.MaxAttempts)
    (hno : ∀ j, 1 ≤ j → j < s → outcomes j ≠ Outcome.success) :
    processJobWithRetry ovf retry outcomes =
      some (scheduleUpTo (timeoutSeq ovf (seconds retry.MaxTimeout) (seconds retry.InitialTimeout))
        1 s (finalReport outcomes s)) := by
  obtain ⟨N, hN⟩ : ∃ N : Nat, retry.MaxAttempts = (N : Int) :=
    ⟨retry.MaxAttempts.toNat, (Int.toNat_of_nonneg (by omega)).symm⟩
  unfold processJobWithRetry
  simp only [hN, Int.toNat_ofNat]
  rw [hN] at hs hstop
  have hs2 : s ≤ N := by exact_mod_cast hs
  have hstop2 : outcomes s = Outcome.success ∨ s = N := by
    rcases hstop with h | h
    · exact Or.inl h
    · exact Or.inr (by exact_mod_cast h)
  exact retryLoop_eq ovf outcomes N _ _ s hs2 hstop2 (N + 1) 1 le_rfl h1 (by omega) hno

theorem attemptTimeouts_scheduleUpTo (T : Nat → Int) (final : Event)
    (hf : final = Event.succeeded ∨ final = Event.gaveUp) (d a : Nat) (ha : 1 ≤ a) :
    attemptTimeouts (scheduleUpTo T a (a + d) final) = (List.range' a (d + 1)).map (fun k => T (k - 1)) := by
  induction d generalizing a with
  | zero =>
    rcases hf with h | h <;> simp [scheduleUpTo_self, h, attemptTimeouts]
  | succ d ih =>
    rw [scheduleUpTo_step _ _ _ _ (by omega), List.range'_succ]
    have := ih (a + 1) (by omega)
    rw [show a + 1 + d = a + (d + 1) by omega] at this
    simp [attemptTimeouts, this]

theorem sleepDurations_scheduleUpTo (T : Nat → Int) (final : Event)
    (hf : final = Event.succeeded ∨ final = Event.gaveUp) (d a : Nat) :
    sleepDurations (scheduleUpTo T a (a + d) final) = (List.range' a d).map T := by
  induction d generalizing a with
  | zero =>
    rcases hf with h | h <;> simp [scheduleUpTo_self, h, sleepDurations]
  | succ d ih =>
    rw [scheduleUpTo_step _ _ _ _ (by omega), List.range'_succ]
    have := ih (a + 1)
    rw [show a + 1 + d = a + (d + 1) by omega] at this
    simp [sleepDurations, this]

theorem finalReport_cases (outcomes : Nat → Outcome) (s : Nat) :
    finalReport outcomes s = Event.succeeded ∨ finalReport outcomes s = Event.gaveUp := by
  unfold finalReport; split <;> simp

theorem wrap64_eq_self (x : Int) (h1 : -2 ^ 63 ≤ x) (h2 : x < 2 ^ 63) : wrap64 x = x := by
  unfold wrap64
  rw [Int.emod_eq_of_lt (by omega) (by omega)]
  omega

theorem triangle_succ (i : Nat) : (i + 1) * (i + 1 - 1) / 2 = i * (i - 1) / 2 + i := by
  cases i with
  | zero => simp
  | succ j =>
    have h : (j + 1 + 1) * (j + 1 + 1 - 1) = (j + 1) * (j + 1 - 1) + 2 * (j + 1) := by
      simp only [Nat.add_sub_cancel]; ring
    rw [h, Nat.add_mul_div_left _ _ (by decide : 0 < 2)]

/-- Closed form of the timeouts while no product leaves the `int64` range. -/
theorem timeoutSeq_closed (ovf : Nat → Int) (I Mx : Int) (n : Nat) (hI : 0 < I) (hM : I ≤ Mx)
    (hFits : Mx * Second * 2 ^ n < 2 ^ 63) :
    ∀ i, i ≤ n + 1 →
      timeoutSeq ovf (seconds Mx) (seconds I) i =
        min (Mx * Second) (I * Second * 2 ^ (i * (i - 1) / 2)) := by
  have hS : (0 : Int) < Second := by decide
  have hI0 : 0 < I * Second := mul_pos hI hS
  have hIM : I * Second ≤ Mx * Second := mul_le_mul_of_nonneg_right hM hS.le
  have hpn : (1 : Int) ≤ 2 ^ n := one_le_pow₀ (by norm_num)
  have hMfit : Mx * Second < 2 ^ 63 := by nlinarith
  have hsI : seconds I = I * Second := wrap64_eq_self _ (by omega) (by omega)
  have hsM : seconds Mx = Mx * Second := wrap64_eq_self _ (by omega) (by omega)
  have hn : n ≤ 62 := by
    by_contra hc
    have h63 : (2 : Int) ^ 63 ≤ 2 ^ n := pow_le_pow_right₀ (by norm_num) (by omega)
    have : (1 : Int) ≤ Mx * Second := by omega
    nlinarith
  rw [hsI, hsM]
  intro i
  induction i with
  | zero => intro _; simp [timeoutSeq, hIM]
  | succ i ih =>
    intro hi
    have ihv := ih (by omega)
    have hX : 0 < I * Second * 2 ^ (i * (i - 1) / 2) := mul_pos hI0 (by positivity)
    have hT0 : 0 < timeoutSeq ovf (Mx * Second) (I * Second) i := by
      rw [ihv]; exact lt_min (by omega) hX
    have hTM : timeoutSeq ovf (Mx * Second) (I * Second) i ≤ Mx * Second := by
      rw [ihv]; exact min_le_left _ _
    have hpi : (1 : Int) ≤ 2 ^ i := one_le_pow₀ (by norm_num)
    have hpin : (2 : Int) ^ i ≤ 2 ^ n := pow_le_pow_right₀ (by norm_num) (by omega)
    have hprod : timeoutSeq ovf (Mx * Second) (I * Second) i * 2 ^ i ≤ Mx * Second * 2 ^ n :=
      mul_le_mul hTM hpin (by positivity) (by omega)
    have hprod0 : 0 < timeoutSeq ovf (Mx * Second) (I * Second) i * 2 ^ i := mul_pos hT0 (by positivity)
    have hpow : pow2Duration ovf i = 2 ^ i := by
      unfold pow2Duration; rw [if_pos (by omega)]
    have hnext : timeoutSeq ovf (Mx * Second) (I * Second) (i + 1) =
        min (Mx * Second) (timeoutSeq ovf (Mx * Second) (I * Second) i * 2 ^ i) := by
      simp only [timeoutSeq, nextTimeout, Nat.add_sub_cancel, hpow]
      rw [wrap64_eq_self _ (by omega) (by omega)]
      split
      · rw [min_eq_left (by omega)]
      · rw [min_eq_right (by omega)]
    rw [hnext, triangle_succ, pow_add, ← mul_assoc, ihv]
    rcases le_total (I * Second * 2 ^ (i * (i - 1) / 2)) (Mx * Second) with hc | hc
    · rw [min_eq_right hc]
    · rw [min_eq_left hc]
      have h1 : Mx * Second ≤ Mx * Second * 2 ^ i := by nlinarith
      have h2 : Mx * Second ≤ I * Second * 2 ^ (i * (i - 1) / 2) * 2 ^ i := by nlinarith
      rw [min_eq_left h1, min_eq_left h2]

/-! ## Properties of the retry executor -/

/-- C1, as stated, fails: under the policy `maxAttempts = 4`, `initialTimeout = 1s`,
`maxTimeout = 8s` and an action that always fails, the attempts run under
1s, 1s, 2s, 8s, while the claimed closed form gives 1s, 1s, 2s, 4s. -/
theorem processJobWithRetry_timeouts_not_claimed :
    (processJobWithRetry (fun _ => 0) ⟨4, 1, 8⟩ alwaysFails).map attemptTimeouts =
        some [1 * Second, 1 * Second, 2 * Second, 8 * Second] ∧
      (List.range' 1 4).map (claimedTimeout ⟨4, 1, 8⟩) =
        [1 * Second, 1 * Second, 2 * Second, 4 * Second] ∧
      (processJobWithRetry (fun _ => 0) ⟨4, 1, 8⟩ alwaysFails).map attemptTimeouts ≠
        some ((List.range' 1 4).map (claimedTimeout ⟨4, 1, 8⟩)) := by
  decide

/-- C1, amended: for a policy with `maxAttempts ≥ 1` and
`0 < initialTimeout ≤ maxTimeout` whose nanosecond products stay in the `int64`
range (`maxTimeout * 10^9 * 2^(maxAttempts - 2) < 2^63`), and a job none of
whose attempts succeeds, `processJobWithRetry` returns after exactly
`maxAttempts` attempts, and attempt `k` runs under the timeout
`min(maxTimeout, initialTimeout * 2^((k-1)(k-2)/2))`: the multiplier
`2^(attempt-1)` is applied to the current timeout, so the exponents add up. -/
theorem processJobWithRetry_timeouts (ovf : Nat → Int) (retry : WorkerRetryConfig)
    (outcomes : Nat → Outcome)
    (hA : 1 ≤ retry.MaxAttempts) (hI : 0 < retry.InitialTimeout)
    (hM : retry.InitialTimeout ≤ retry.MaxTimeout)
    (hFits : retry.MaxTimeout * Second * 2 ^ (retry.MaxAttempts.toNat - 2) < 2 ^ 63)
    (hFail : ∀ k, outcomes k ≠ Outcome.success) :
    (processJobWithRetry ovf retry outcomes).map attemptTimeouts =
      some ((List.range' 1 retry.MaxAttempts.toNat).map (fun k =>
        min (retry.MaxTimeout * Second)
          (retry.InitialTimeout * Second * 2 ^ ((k - 1) * (k - 2) / 2)))) := by
  obtain ⟨N, hN⟩ : ∃ N : Nat, retry.MaxAttempts = (N : Int) :=
    ⟨retry.MaxAttempts.toNat, (Int.toNat_of_nonneg (by omega)).symm⟩
  have hN1 : 1 ≤ N := by omega
  rw [processJobWithRetry_eq ovf retry outcomes N hN1 (by omega) (Or.inr hN.symm)
    (fun j _ _ => hFail j)]
  simp only [hN, Int.toNat_ofNat, Option.map_some'] at hFits ⊢
  obtain ⟨d, rfl⟩ : ∃ d, N = 1 + d := ⟨N - 1, by omega⟩
  rw [attemptTimeouts_scheduleUpTo _ _ (finalReport_cases _ _) d 1 le_rfl]
  congr 1
  rw [Nat.add_comm 1 d]
  apply List.map_congr_left
  intro k hk
  rw [List.mem_range'_1] at hk
  have := timeoutSeq_closed ovf retry.InitialTimeout retry.MaxTimeout (1 + d - 2) hI hM hFits
    (k - 1) (by omega)
  rw [this]
  have e : k - 1 - 1 = k - 2 := by omega
  rw [e]

/-- The hypotheses of `processJobWithRetry_timeouts` hold for the policy
`maxAttempts = 5`, `initialTimeout = 1s`, `maxTimeout = 100s`. -/
theorem processJobWithRetry_timeouts_witness :
    (processJobWithRetry (fun _ => 0) ⟨5, 1, 100⟩ alwaysFails).map attemptTimeouts =
      some ((List.range' 1 (5 : Int).toNat).map (fun k =>
        min (100 * Second) (1 * Second * 2 ^ ((k - 1) * (k - 2) / 2)))) :=
  processJobWithRetry_timeouts (fun _ => 0) ⟨5, 1, 100⟩ alwaysFails (by decide) (by decide)
    (by decide) (by decide) (by intro k; simp [alwaysFails])

/-- C2: under a policy with `maxAttempts ≥ 1`, for every sequence of attempt
outcomes, `processJobWithRetry` returns, and its trace ends with the last
attempt followed by the terminal report alone.  When attempt `k ≤ maxAttempts`
is the first to succeed, the trace holds exactly `k` attempts and `k - 1`
sleeps and ends with attempt `k` and the success report; when no attempt up to
`maxAttempts` succeeds, it holds exactly `maxAttempts` attempts and
`maxAttempts - 1` sleeps and ends with attempt `maxAttempts` and the
exhaustion report. -/
theorem processJobWithRetry_attempts_and_sleeps (ovf : Nat → Int) (retry : WorkerRetryConfig)
    (outcomes : Nat → Outcome) (hA : 1 ≤ retry.MaxAttempts) :
    (∀ k : Nat, 1 ≤ k → (k : Int) ≤ retry.MaxAttempts → outcomes k = Outcome.success →
      (∀ j, 1 ≤ j → j < k → outcomes j ≠ Outcome.success) →
      ∃ pre t, processJobWithRetry ovf retry outcomes =
          some (pre ++ [Event.attempt k t, Event.succeeded]) ∧
        (attemptTimeouts (pre ++ [Event.attempt k t, Event.succeeded])).length = k ∧
        (sleepDurations (pre ++ [Event.attempt k t, Event.succeeded])).length = k - 1) ∧
    ((∀ j : Nat, 1 ≤ j → (j : Int) ≤ retry.MaxAttempts → outcomes j ≠ Outcome.success) →
      ∃ pre t, processJobWithRetry ovf retry outcomes =
          some (pre ++ [Event.attempt retry.MaxAttempts.toNat t, Event.gaveUp]) ∧
        (attemptTimeouts (pre ++ [Event.attempt retry.MaxAttempts.toNat t, Event.gaveUp])).length =
          retry.MaxAttempts.toNat ∧
        (sleepDurations (pre ++ [Event.attempt retry.MaxAttempts.toNat t, Event.gaveUp])).length =
          retry.MaxAttempts.toNat - 1) := by
  have key : ∀ s : Nat, 1 ≤ s → (s : Int) ≤ retry.MaxAttempts →
      (outcomes s = Outcome.success ∨ (s : Int) = retry.MaxAttempts) →
      (∀ j, 1 ≤ j → j < s → outcomes j ≠ Outcome.success) →
      ∃ pre t, processJobWithRetry ovf retry outcomes =
          some (pre ++ [Event.attempt s t, finalReport outcomes s]) ∧
        (attemptTimeouts (pre ++ [Event.attempt s t, finalReport outcomes s])).length = s ∧
        (sleepDurations (pre ++ [Event.attempt s t, finalReport outcomes s])).length = s - 1 := by
    intro s h1 hs hstop hno
    have hrun := processJobWithRetry_eq ovf retry outcomes s h1 hs hstop hno
    refine ⟨_, _, hrun, ?_, ?_⟩
    · obtain ⟨d, rfl⟩ : ∃ d, s = 1 + d := ⟨s - 1, by omega⟩
      have := attemptTimeouts_scheduleUpTo
        (timeoutSeq ovf (seconds retry.MaxTimeout) (seconds retry.InitialTimeout))
        _ (finalReport_cases outcomes (1 + d)) d 1 le_rfl
      unfold scheduleUpTo at this
      rw [this]; simp; omega
    · obtain ⟨d, rfl⟩ : ∃ d, s = 1 + d := ⟨s - 1, by omega⟩
      have := sleepDurations_scheduleUpTo
        (timeoutSeq ovf (seconds retry.MaxTimeout) (seconds retry.InitialTimeout))
        _ (finalReport_cases outcomes (1 + d)) d 1
      unfold scheduleUpTo at this
      rw [this]; simp
  constructor
  · intro k h1 hk hsucc hno
    have := key k h1 hk (Or.inl hsucc) hno
    simpa [finalReport, hsucc] using this
  · intro hno
    have hN : ((retry.MaxAttempts.toNat : Nat) : Int) = retry.MaxAttempts :=
      Int.toNat_of_nonneg (by omega)
    have hfin : finalReport outcomes retry.MaxAttempts.toNat = Event.gaveUp := by
      unfold finalReport
      rw [if_neg (hno _ (by omega) (by omega))]
    have := key retry.MaxAttempts.toNat (by omega) (by omega) (Or.inr hN)
      (fun j hj hjs => hno j hj (by omega))
    rw [hfin] at this
    exact this

/-- The policy `maxAttempts = 3` satisfies the hypothesis of
`processJobWithRetry_attempts_and_sleeps`; with a job that fails once and then
succeeds, two attempts run, with one sleep between them. -/
theorem processJobWithRetry_attempts_and_sleeps_witness :
    (1 : Int) ≤ 3 ∧
    ∃ pre t, processJobWithRetry (fun _ => 0) ⟨3, 1, 2⟩
          (fun k => if k = 2 then Outcome.success else Outcome.failure) =
          some (pre ++ [Event.attempt 2 t, Event.succeeded]) ∧
        (attemptTimeouts (pre ++ [Event.attempt 2 t, Event.succeeded])).length = 2 ∧
        (sleepDurations (pre ++ [Event.attempt 2 t, Event.succeeded])).length = 2 - 1 :=
  ⟨by decide,
    (processJobWithRetry_attempts_and_sleeps (fun _ => 0) ⟨3, 1, 2⟩
      (fun k => if k = 2 then Outcome.success else Outcome.failure) (by decide)).1 2
      (by decide) (by decide) (by decide) (by intro j h1 h2; have : j = 1 := by omega
                                              subst this; decide)⟩

/-- C3, as stated, fails: under `initialTimeout = 1s`, `maxTimeout = 2s`,
`maxAttempts = 3` and an action that never returns, the attempt deadlines are
not 1s, 2s, 2s, and the deadlines and sleeps do not add up to 8s or more. -/
theorem processJobWithRetry_schedule_not_claimed :
    (processJobWithRetry (fun _ => 0) ⟨3, 1, 2⟩ neverReturns).map attemptTimeouts ≠
        some [1 * Second, 2 * Second, 2 * Second] ∧
      (processJobWithRetry (fun _ => 0) ⟨3, 1, 2⟩ neverReturns).map
        (fun trace => decide (8 * Second ≤ totalWait trace)) = some false := by
  decide

/-- C3, amended: under `initialTimeout = 1s`, `maxTimeout = 2s`,
`maxAttempts = 3` and an action that never returns, `processJobWithRetry` runs
attempt deadlines of 1s, 1s, 2s with sleeps of 1s, 2s between them and then
reports exhaustion; the deadlines and sleeps add up to 7s. -/
theorem processJobWithRetry_schedule (ovf : Nat → Int) :
    processJobWithRetry ovf ⟨3, 1, 2⟩ neverReturns =
        some [Event.attempt 1 (1 * Second), Event.sleep (1 * Second),
          Event.attempt 2 (1 * Second), Event.sleep (2 * Second),
          Event.attempt 3 (2 * Second), Event.gaveUp] ∧
      (processJobWithRetry ovf ⟨3, 1, 2⟩ neverReturns).map attemptTimeouts =
        some [1 * Second, 1 * Second, 2 * Second] ∧
      (processJobWithRetry ovf ⟨3, 1, 2⟩ neverReturns).map sleepDurations =
        some [1 * Second, 2 * Second] ∧
      (processJobWithRetry ovf ⟨3, 1, 2⟩ neverReturns).map totalWait = some (7 * Second) := by
  refine ⟨rfl, rfl, rfl, rfl⟩

/-! ## Lemmas on the pool -/

theorem bind_eq_ok {ε α β : Type} (x : Except ε α) (f : α → Except ε β) (b : β)
    (h : x.bind f = Except.ok b) : ∃ a, x = Except.ok a ∧ f a = Except.ok b := by
  cases x with
  | error e => simp [Except.bind] at h
  | ok a => exact ⟨a, rfl, h⟩

/-- A `Shutdown` whose caller does not hold `p.mu` returns on a running pool,
whatever the workers still receive. -/
theorem Shutdown_unlocked {α : Type} (taken : Nat) (p : Pool α) (h : Running p) :
    Shutdown false taken p = Except.ok
      { p with cancelled := p.ctx :: p.cancelled,
               watchers := p.watchers.filter (fun c => c ≠ p.ctx),
               jobs := { p.jobs with buf := p.jobs.buf.drop (takenOnExit p taken).length,
                                     closed := true },
               started := p.started ++ p.held ++ takenOnExit p taken,
               held := [], running := 0, wg := 0 } := by
  unfold Running at h
  simp [Shutdown, h, takenOnExit]

/-- A `Shutdown` under `p.mu` returns on a running pool when no worker holds a
job and none still receives one from the queue. -/
theorem Shutdown_locked_quiet {α : Type} (taken : Nat) (p : Pool α) (h : Running p)
    (hHeld : p.held = []) (hLate : takenOnExit p taken = []) :
    Shutdown true taken p = Except.ok
      { p with cancelled := p.ctx :: p.cancelled,
               watchers := p.watchers.filter (fun c => c ≠ p.ctx),
               jobs := { p.jobs with closed := true },
               held := [], running := 0, wg := 0 } := by
  unfold Running at h
  unfold takenOnExit at hLate
  simp [Shutdown, takenOnExit, h, hHeld, hLate]

/-- A `Shutdown` under `p.mu` never returns when a worker holds a job or still
receives one from the queue. -/
theorem Shutdown_locked_deadlock {α : Type} (taken : Nat) (p : Pool α) (h : Running p)
    (hBusy : 0 < p.held.length + (takenOnExit p taken).length) :
    Shutdown true taken p = Except.error Fault.deadlock := by
  unfold Running at h
  unfold takenOnExit at hBusy
  simp only [Shutdown, takenOnExit, h]
  rw [if_neg (by simp), if_pos ⟨trivial, hBusy⟩]

theorem mem_takenOnExit {α : Type} (p : Pool α) (taken : Nat) (j : α)
    (h : j ∈ takenOnExit p taken) : j ∈ p.jobs.buf := by
  unfold takenOnExit at h
  split at h
  · simp at h
  · exact List.mem_of_mem_take h

theorem Shutdown_ok {α : Type} (locked : Bool) (taken : Nat) (p p1 : Pool α)
    (h : Shutdown locked taken p = Except.ok p1) :
    Running p ∧ p1.jobs.closed = true ∧ p1.held = [] ∧ p1.cfg = p.cfg ∧
      (∀ j, j ∈ p1.started → j ∈ p.started ∨ j ∈ p.held ∨ j ∈ p.jobs.buf) ∧
      (∀ j, j ∈ p1.jobs.buf → j ∈ p.jobs.buf) := by
  by_cases hc : p.jobs.closed = true
  · simp [Shutdown, hc] at h
  · have hr : p.jobs.closed = false := by simpa using hc
    simp only [Shutdown, hr] at h
    rw [if_neg (by simp)] at h
    split at h
    · simp at h
    · simp only [Except.ok.injEq] at h
      subst h
      refine ⟨hr, rfl, rfl, rfl, ?_, ?_⟩
      · intro j hj
        simp only [List.mem_append] at hj
        rcases hj with (hj | hj) | hj
        · exact Or.inl hj
        · exact Or.inr (Or.inl hj)
        · exact Or.inr (Or.inr (mem_takenOnExit _ taken j hj))
      · intro j hj
        exact List.mem_of_mem_drop hj

theorem Start_of_valid {α : Type} (m : Machine) (p : Pool α) (h : 0 ≤ p.cfg.QueueSize)
    (hMax : p.cfg.QueueSize ≤ (m.maxCap : Int)) (hWk : p.cfg.PoolSize ≤ (m.maxWorkers : Int)) :
    Start m p = Except.ok
      { p with workers := p.cfg.PoolSize, ctx := p.ctx + 1,
               jobs := { cap := p.cfg.QueueSize.toNat, buf := [], closed := false },
               wg := p.wg + p.cfg.PoolSize.toNat,
               watchers := p.watchers ++ [p.ctx + 1] } := by
  have : ¬ (p.cfg.QueueSize < 0 ∨ (m.maxCap : Int) < p.cfg.QueueSize) := by omega
  simp [Start, this, not_lt.mpr hWk]

theorem Start_ok {α : Type} (m : Machine) (p p1 : Pool α) (h : Start m p = Except.ok p1) :
    (0 ≤ p.cfg.QueueSize ∧ p.cfg.QueueSize ≤ (m.maxCap : Int) ∧
        p.cfg.PoolSize ≤ (m.maxWorkers : Int)) ∧
      p1 = { p with workers := p.cfg.PoolSize, ctx := p.ctx + 1,
                    jobs := { cap := p.cfg.QueueSize.toNat, buf := [], closed := false },
                    wg := p.wg + p.cfg.PoolSize.toNat,
                    watchers := p.watchers ++ [p.ctx + 1] } := by
  by_cases hc : p.cfg.QueueSize < 0 ∨ (m.maxCap : Int) < p.cfg.QueueSize
  · simp [Start, hc] at h
  · by_cases hw : (m.maxWorkers : Int) < p.cfg.PoolSize
    · simp [Start, hc, hw] at h
    · have h1 : 0 ≤ p.cfg.QueueSize ∧ p.cfg.QueueSize ≤ (m.maxCap : Int) ∧
          p.cfg.PoolSize ≤ (m.maxWorkers : Int) := by omega
      rw [Start_of_valid m p h1.1 h1.2.1 h1.2.2] at h
      exact ⟨h1, (Except.ok.inj h).symm⟩

theorem scalePoolIfNeeded_noDrift {α : Type} (m : Machine) (taken : Nat) (p : Pool α) (h : NoDrift p) :
    scalePoolIfNeeded m taken p = Except.ok p := by
  obtain ⟨h1, h2⟩ := h
  simp [scalePoolIfNeeded, h1, h2]

theorem scalePoolIfNeeded_drift {α : Type} (m : Machine) (taken : Nat) (p : Pool α) (h : ¬ NoDrift p) :
    scalePoolIfNeeded m taken p = resize m taken p := by
  have : p.cfg.QueueSize ≠ (p.jobs.cap : Int) ∨ p.cfg.PoolSize ≠ p.workers := by
    by_contra hc
    push_neg at hc
    exact h hc
  simp only [scalePoolIfNeeded]
  rw [if_pos this]

theorem resize_jobs {α : Type} (m : Machine) (taken : Nat) (p p1 : Pool α)
    (h : resize m taken p = Except.ok p1) (j : α)
    (hj : j ∈ p1.started ∨ j ∈ p1.held ∨ j ∈ p1.jobs.buf) :
    j ∈ p.started ∨ j ∈ p.held ∨ j ∈ p.jobs.buf := by
  obtain ⟨p2, h2, h3⟩ := bind_eq_ok _ _ _ h
  obtain ⟨_, _, hh, _, hs, _⟩ := Shutdown_ok true taken p p2 h2
  obtain ⟨_, rfl⟩ := Start_ok m p2 p1 h3
  rcases hj with hj | hj | hj
  · exact hs j hj
  · have hj2 : j ∈ p2.held := hj
    rw [hh] at hj2
    simp at hj2
  · simp at hj

theorem scalePoolIfNeeded_jobs {α : Type} (m : Machine) (taken : Nat) (p p1 : Pool α)
    (h : scalePoolIfNeeded m taken p = Except.ok p1) (j : α)
    (hj : j ∈ p1.started ∨ j ∈ p1.held ∨ j ∈ p1.jobs.buf) :
    j ∈ p.started ∨ j ∈ p.held ∨ j ∈ p.jobs.buf := by
  by_cases hd : NoDrift p
  · rw [scalePoolIfNeeded_noDrift m taken p hd] at h
    cases h
    exact hj
  · rw [scalePoolIfNeeded_drift m taken p hd] at h
    exact resize_jobs m taken p p1 h j hj

theorem send_jobs {α : Type} (parked : Bool) (p : Pool α) (job : α) (r : Option String × Pool α)
    (h : send parked p job = Except.ok r) (j : α)
    (hj : j ∈ r.2.started ∨ j ∈ r.2.held ∨ j ∈ r.2.jobs.buf) :
    (j ∈ p.started ∨ j ∈ p.held ∨ j ∈ p.jobs.buf) ∨ j = job := by
  unfold send at h
  split at h
  · simp at h
  · split at h
    · simp only [Except.ok.injEq] at h
      subst h
      simp only [List.mem_append, List.mem_singleton] at hj
      rcases hj with hj | hj | hj | hj
      · exact Or.inl (Or.inl hj)
      · exact Or.inl (Or.inr (Or.inl hj))
      · exact Or.inl (Or.inr (Or.inr hj))
      · exact Or.inr hj
    · split at h
      · simp only [Except.ok.injEq] at h
        subst h
        simp only [List.mem_append, List.mem_singleton] at hj
        rcases hj with hj | (hj | hj) | hj
        · exact Or.inl (Or.inl hj)
        · exact Or.inl (Or.inr (Or.inl hj))
        · exact Or.inr hj
        · exact Or.inl (Or.inr (Or.inr hj))
      · simp only [Except.ok.injEq] at h
        subst h
        exact Or.inl hj

theorem map_snd_eq_ok {ε α β : Type} (x : Except ε (α × β)) (b : β)
    (h : x.map Prod.snd = Except.ok b) : ∃ r, x = Except.ok r ∧ r.2 = b := by
  cases x with
  | error e => simp [Except.map] at h
  | ok r =>
    simp only [Except.map, Except.ok.injEq] at h
    exact ⟨r, rfl, h⟩

theorem step_jobs {α : Type} (m : Machine) (p p1 : Pool α) (op : Op α)
    (h : step m p op = Except.ok p1) (j : α)
    (hj : j ∈ p1.started ∨ j ∈ p1.held ∨ j ∈ p1.jobs.buf) :
    (j ∈ p.started ∨ j ∈ p.held ∨ j ∈ p.jobs.buf) ∨ j ∈ submitted [op] := by
  cases op with
  | tick i taken =>
    simp only [step, tick] at h
    cases hw : p.watchers.get? i with
    | none => rw [hw] at h; cases h; exact Or.inl hj
    | some c =>
      rw [hw] at h
      obtain ⟨p2, h2, h3⟩ := bind_eq_ok _ _ _ h
      cases h3
      exact Or.inl (scalePoolIfNeeded_jobs m taken _ p2 h2 j hj)
  | submit job taken parked =>
    simp only [step, Submit] at h
    obtain ⟨r, hr, rfl⟩ := map_snd_eq_ok _ _ h
    obtain ⟨p2, h2, h3⟩ := bind_eq_ok _ _ _ hr
    rcases send_jobs parked p2 job r h3 j hj with h4 | h4
    · exact Or.inl (scalePoolIfNeeded_jobs m taken p p2 h2 j h4)
    · right; simp [submitted, h4]
  | config cfg =>
    simp only [step, setConfig, Except.ok.injEq] at h
    subst h
    exact Or.inl hj
  | receive =>
    simp only [step, receive, Except.ok.injEq] at h
    subst h
    left
    split at hj
    · split at hj
      · exact hj
      · rename_i job rest hbuf
        simp only [List.mem_append, List.mem_singleton] at hj
        rw [hbuf]
        rcases hj with hj | (hj | hj) | hj
        · exact Or.inl hj
        · exact Or.inr (Or.inl hj)
        · right; right; simp [hj]
        · right; right; simp [hj]
    · exact hj
  | beginJob i =>
    simp only [step, beginJob, Except.ok.injEq] at h
    subst h
    left
    cases hg : p.held.get? i with
    | none => rw [hg] at hj; exact hj
    | some job =>
      rw [hg] at hj
      simp only [List.mem_append, List.mem_singleton] at hj
      rcases hj with (hj | hj) | hj | hj
      · exact Or.inl hj
      · right; left; rw [hj]; exact List.get?_mem hg
      · right; left; exact List.mem_of_mem_eraseIdx hj
      · exact Or.inr (Or.inr hj)
  | finishJob =>
    simp only [step, finishJob, Except.ok.injEq] at h
    subst h
    exact Or.inl hj
  | resize taken =>
    simp only [step] at h
    exact Or.inl (resize_jobs m taken p p1 h j hj)
  | send job parked =>
    simp only [step] at h
    obtain ⟨r, hr, rfl⟩ := map_snd_eq_ok _ _ h
    rcases send_jobs parked p job r hr j hj with h4 | h4
    · exact Or.inl h4
    · right; simp [submitted, h4]

theorem submitted_cons {α : Type} (op : Op α) (ops : List (Op α)) :
    submitted (op :: ops) = submitted [op] ++ submitted ops := by
  cases op <;> simp [submitted]

/-- Whatever is executed, held or queued after a sequence of operations was so
before it, or was submitted by it. -/
theorem run_jobs {α : Type} (m : Machine) (ops : List (Op α)) :
    ∀ (p p1 : Pool α), run m p ops = Except.ok p1 → ∀ j,
      (j ∈ p1.started ∨ j ∈ p1.held ∨ j ∈ p1.jobs.buf) →
      (j ∈ p.started ∨ j ∈ p.held ∨ j ∈ p.jobs.buf) ∨ j ∈ submitted ops := by
  induction ops with
  | nil =>
    intro p p1 h j hj
    simp only [run, Except.ok.injEq] at h
    subst h
    exact Or.inl hj
  | cons op ops ih =>
    intro p p1 h j hj
    simp only [run] at h
    obtain ⟨p2, h2, h3⟩ := bind_eq_ok _ _ _ h
    rw [submitted_cons]
    rcases ih p2 p1 h3 j hj with h4 | h4
    · rcases step_jobs m p p2 op h2 j h4 with h5 | h5
      · exact Or.inl h5
      · right; exact List.mem_append_left _ h5
    · right; exact List.mem_append_right _ h4

/-! ## Properties of the pool -/

/-- C4: on a running pool whose configuration agrees with the live generation
and whose queue has capacity > 0, `Submit(job)` returns `nil` exactly when the
queue holds fewer jobs than its capacity, and the queue is then the old queue
with `job` appended at the tail; when the queue holds exactly its capacity it
returns the error "job queue is full" and leaves the pool, and with it the
queue, unchanged.  This holds whatever the scheduler decides. -/
theorem Submit_noDrift {α : Type} (m : Machine) (taken : Nat) (parked : Bool) (p : Pool α) (job : α)
    (hRun : Running p) (hND : NoDrift p) (hCap : 0 < p.jobs.cap) :
    (p.jobs.buf.length < p.jobs.cap →
        Submit m taken parked p job =
          Except.ok (none, { p with jobs := { p.jobs with buf := p.jobs.buf ++ [job] } })) ∧
      (p.jobs.buf.length = p.jobs.cap →
        Submit m taken parked p job = Except.ok (some "job queue is full", p)) ∧
      ((∃ p', Submit m taken parked p job = Except.ok (none, p')) ↔
        p.jobs.buf.length < p.jobs.cap) := by
  unfold Running at hRun
  have hS : Submit m taken parked p job =
      if p.jobs.buf.length < p.jobs.cap then
        Except.ok (none, { p with jobs := { p.jobs with buf := p.jobs.buf ++ [job] } })
      else Except.ok (some "job queue is full", p) := by
    have hc : ¬ p.jobs.cap = 0 := by omega
    simp [Submit, send, scalePoolIfNeeded_noDrift m taken p hND, Except.bind, hRun, hc]
  refine ⟨fun h => by rw [hS, if_pos h], fun h => by rw [hS, if_neg (by omega)], ?_⟩
  constructor
  · rintro ⟨p', hp'⟩
    by_contra hc
    rw [hS, if_neg hc] at hp'
    cases hp'
  · intro h
    exact ⟨_, by rw [hS, if_pos h]⟩

/-- The pool `NewPool(sampleConfig)` returns satisfies the hypotheses of
`Submit_noDrift`; its empty queue accepts a job. -/
theorem Submit_noDrift_witness :
    (NewPool sampleMachine sampleConfig = Except.ok samplePool) ∧
      Submit sampleMachine 0 false samplePool 7 =
        Except.ok (none, { samplePool with jobs := { samplePool.jobs with buf := [] ++ [7] } }) :=
  ⟨rfl, (Submit_noDrift sampleMachine 0 false samplePool 7 rfl ⟨rfl, rfl⟩ (by decide)).1
    (by decide)⟩

/-- C5, on the code: after `Shutdown` of a running pool, with the configuration
still agreeing with the pool, `Submit` does not return an error: the send on
the closed queue panics.  This holds whatever the scheduler decides in either
call. -/
theorem Submit_after_Shutdown {α : Type} (m : Machine) (taken taken' : Nat) (parked : Bool)
    (p : Pool α) (job : α) (hRun : Running p) (hND : NoDrift p) :
    ∃ p', Shutdown false taken p = Except.ok p' ∧ NoDrift p' ∧
      Submit m taken' parked p' job =
        Except.error (Fault.panic Panic.sendOnClosedChannel) := by
  have hND' : NoDrift
      { p with cancelled := p.ctx :: p.cancelled,
               watchers := p.watchers.filter (fun c => c ≠ p.ctx),
               jobs := { p.jobs with buf := p.jobs.buf.drop (takenOnExit p taken).length,
                                     closed := true },
               started := p.started ++ p.held ++ takenOnExit p taken,
               held := [], running := 0, wg := 0 } := hND
  refine ⟨_, Shutdown_unlocked taken p hRun, hND', ?_⟩
  rw [Submit, scalePoolIfNeeded_noDrift _ _ _ hND']
  simp [Except.bind, send]

/-- At the pool `NewPool(sampleConfig)` returns: `Shutdown`, then `Submit`,
panics. -/
theorem Submit_after_Shutdown_witness :
    (NewPool sampleMachine sampleConfig = Except.ok samplePool) ∧
      ∃ p', Shutdown false 0 samplePool = Except.ok p' ∧ NoDrift p' ∧
        Submit sampleMachine 0 false p' 7 =
          Except.error (Fault.panic Panic.sendOnClosedChannel) :=
  ⟨rfl, Submit_after_Shutdown sampleMachine 0 0 false samplePool 7 rfl ⟨rfl, rfl⟩⟩

/-- C6, on the code: a second `Shutdown` does not complete: after `Shutdown` of
a running pool, `Shutdown` panics in `close(p.jobs)`, whatever the scheduler
decides and whether or not the second caller holds `p.mu`. -/
theorem Shutdown_twice {α : Type} (taken taken' : Nat) (locked : Bool) (p : Pool α)
    (hRun : Running p) :
    ∃ p', Shutdown false taken p = Except.ok p' ∧
      Shutdown locked taken' p' = Except.error (Fault.panic Panic.closeOfClosedChannel) := by
  refine ⟨_, Shutdown_unlocked taken p hRun, ?_⟩
  simp [Shutdown]

/-- At the pool `NewPool(sampleConfig)` returns: the second `Shutdown` panics. -/
theorem Shutdown_twice_witness :
    (NewPool sampleMachine sampleConfig = Except.ok samplePool) ∧
      ∃ p', Shutdown false 0 samplePool = Except.ok p' ∧
        Shutdown false 0 p' = Except.error (Fault.panic Panic.closeOfClosedChannel) :=
  ⟨rfl, Shutdown_twice 0 0 false samplePool rfl⟩

/-- C7, as stated, fails on a running pool and a configuration with positive
counts.  With `queueCapacity = 2^62` the check finds drift, shuts the old
generation down and panics in `make`: no new generation exists; with
`workerCount = 2^62` it runs out of memory starting the workers.  With the
worker count changed from 1 to 4, one job queued, and the worker taking that
job from the closed queue during the teardown, the worker blocks at
`p.mu.RLock()` under the lock the check holds, and the check never returns.
And when two checks have seen the same drift, the second one swaps again with
no drift left: after the worker count changed from 1 to 2, a `Submit` swaps
to generation 2 and queues its job; the locked section of the other check
then swaps to generation 3 and the job is gone without having been executed. -/
theorem scalePoolIfNeeded_swap_fails :
    (Running { samplePool with cfg := { sampleConfig with QueueSize := 2 ^ 62 } } ∧
      scalePoolIfNeeded sampleMachine 0
          { samplePool with cfg := { sampleConfig with QueueSize := 2 ^ 62 } } =
        Except.error (Fault.panic Panic.makechanSizeOutOfRange) ∧
      scalePoolIfNeeded sampleMachine 0
          { samplePool with cfg := { sampleConfig with PoolSize := 2 ^ 62 } } =
        Except.error Fault.outOfMemory) ∧
      (Running { samplePool with cfg := { sampleConfig with PoolSize := 4 },
                                 jobs := { samplePool.jobs with buf := [7] } } ∧
        scalePoolIfNeeded sampleMachine 1
            { samplePool with cfg := { sampleConfig with PoolSize := 4 },
                              jobs := { samplePool.jobs with buf := [7] } } =
          Except.error Fault.deadlock) ∧
      ((run sampleMachine samplePool
            [Op.config { sampleConfig with PoolSize := 2 }, Op.submit 7 0 false]).map
          (fun p => (p.ctx, p.jobs.buf, p.started, decide (NoDrift p))) =
          Except.ok (2, [7], [], true) ∧
        (run sampleMachine samplePool
            [Op.config { sampleConfig with PoolSize := 2 }, Op.submit 7 0 false,
              Op.resize 0]).map
          (fun p => (p.ctx, p.jobs.buf, p.started)) = Except.ok (3, [], [])) :=
  ⟨⟨rfl, rfl, rfl⟩, ⟨rfl, rfl⟩, ⟨rfl, rfl⟩⟩

/-- C7, amended: on a running pool, with positive counts in the configuration
that the machine allows (a queue capacity that `make` accepts, a worker count
it can start), take one call of `scalePoolIfNeeded` whose test and locked
section run in the same state and during whose teardown no worker holds a job
or still receives one from the queue.  It returns, and it swaps the
generation exactly when the configured
worker count or queue capacity differs from the live one.  When it swaps, the
old context is cancelled, the new generation has exactly the configured number
of workers and an empty, open queue of the configured capacity; the jobs of
the old queue are not in it, and whatever operations follow, every job
executed afterwards was executed before the swap or submitted after it.  When
it does not swap, the pool is unchanged. -/
theorem scalePoolIfNeeded_swap {α : Type} (m : Machine) (taken : Nat) (p : Pool α) (hRun : Running p)
    (hW : 0 < p.cfg.PoolSize) (hQ : 0 < p.cfg.QueueSize)
    (hMax : p.cfg.QueueSize ≤ (m.maxCap : Int)) (hWk : p.cfg.PoolSize ≤ (m.maxWorkers : Int))
    (hHeld : p.held = []) (hLate : takenOnExit p taken = []) :
    ((∃ p', scalePoolIfNeeded m taken p = Except.ok p' ∧ p'.ctx ≠ p.ctx) ↔ ¬ NoDrift p) ∧
      (¬ NoDrift p → ∃ p', scalePoolIfNeeded m taken p = Except.ok p' ∧
        p'.ctx = p.ctx + 1 ∧ p.ctx ∈ p'.cancelled ∧
        p'.workers = p.cfg.PoolSize ∧ (p'.wg : Int) = p.cfg.PoolSize ∧
        p'.jobs.buf = [] ∧ (p'.jobs.cap : Int) = p.cfg.QueueSize ∧ p'.jobs.closed = false ∧
        (∀ j, j ∈ p.jobs.buf → j ∉ p'.jobs.buf) ∧
        (∀ ops p'', run m p' ops = Except.ok p'' → ∀ j, j ∈ p''.started →
          j ∈ p.started ∨ j ∈ submitted ops)) ∧
      (NoDrift p → scalePoolIfNeeded m taken p = Except.ok p) := by
  have hswap : ¬ NoDrift p → scalePoolIfNeeded m taken p = Except.ok
      { p with cancelled := p.ctx :: p.cancelled,
               watchers := p.watchers.filter (fun c => c ≠ p.ctx) ++ [p.ctx + 1],
               workers := p.cfg.PoolSize, ctx := p.ctx + 1,
               jobs := { cap := p.cfg.QueueSize.toNat, buf := [], closed := false },
               held := [], running := 0,
               wg := 0 + p.cfg.PoolSize.toNat } := by
    intro hd
    rw [scalePoolIfNeeded_drift m taken p hd, resize,
      Shutdown_locked_quiet taken p hRun hHeld hLate]
    simp only [Except.bind]
    rw [Start_of_valid m _ (by simpa using hQ.le) (by simpa using hMax) (by simpa using hWk)]
  refine ⟨⟨?_, ?_⟩, ?_, scalePoolIfNeeded_noDrift m taken p⟩
  · rintro ⟨p', h1, h2⟩ hd
    rw [scalePoolIfNeeded_noDrift m taken p hd] at h1
    cases h1
    exact h2 rfl
  · intro hd
    exact ⟨_, hswap hd, by simp⟩
  · intro hd
    refine ⟨_, hswap hd, rfl, by simp, rfl, ?_, rfl, ?_, rfl, by simp, ?_⟩
    · simp only [Nat.zero_add]
      exact Int.toNat_of_nonneg hW.le
    · exact Int.toNat_of_nonneg hQ.le
    · intro ops p'' hrun j hj
      rcases run_jobs m ops _ p'' hrun j (Or.inl hj) with (h | h | h) | h
      · exact Or.inl h
      · simp at h
      · simp at h
      · exact Or.inr h

/-- The pool `NewPool(sampleConfig)` returns, after the configured worker count
changed from 1 to 4 and one job was queued, satisfies the hypotheses of
`scalePoolIfNeeded_swap` when the worker takes no job during the teardown; the
check swaps the generation. -/
theorem scalePoolIfNeeded_swap_witness :
    ∃ p', scalePoolIfNeeded sampleMachine 0
        { samplePool with cfg := { sampleConfig with PoolSize := 4 },
                          jobs := { samplePool.jobs with buf := [7] } } = Except.ok p' ∧
      p'.ctx ≠ samplePool.ctx :=
  ((scalePoolIfNeeded_swap sampleMachine 0
      { samplePool with cfg := { sampleConfig with PoolSize := 4 },
                        jobs := { samplePool.jobs with buf := [7] } }
      rfl (by decide) (by decide) (by decide) (by decide) rfl rfl).1).2 (by decide)

/-- C8, as stated, fails in both directions.  With `workerCount = 0` in the
configuration, `Start` on the zero pool returns normally: it creates a queue
of the configured capacity 1, starts no worker and starts the `watchConfig`
goroutine.  With both counts positive it does not always succeed: with
`queueCapacity = 2^62` `make` panics, and with `workerCount = 2^62` the
machine runs out of memory starting the workers. -/
theorem Start_zero_workerCount :
    (∃ p' : Pool Nat,
        Start sampleMachine (zeroPool { sampleConfig with PoolSize := 0 }) = Except.ok p' ∧
        p'.jobs = { cap := 1, buf := [], closed := false } ∧ p'.wg = 0 ∧ p'.watchers = [1]) ∧
      Start sampleMachine (zeroPool { sampleConfig with QueueSize := 2 ^ 62 } : Pool Nat) =
        Except.error (Fault.panic Panic.makechanSizeOutOfRange) ∧
      Start sampleMachine (zeroPool { sampleConfig with PoolSize := 2 ^ 62 } : Pool Nat) =
        Except.error Fault.outOfMemory :=
  ⟨⟨_, rfl, rfl, rfl, rfl⟩, rfl, rfl⟩

/-- C8, amended: `Start` has no error result.  For every configuration whose
`queueCapacity` is at least 0 and at most the largest size `make` accepts,
and whose `workerCount`, positive or not, is at most the number of workers
the machine can start, it returns normally: a fresh context is current,
the queue is empty, open and of exactly `queueCapacity`, `p.workers` is
`workerCount`, exactly `max(workerCount, 0)` workers are added (so exactly
`workerCount` when both counts are positive) and one `watchConfig` goroutine
is started. -/
theorem Start_creates_generation {α : Type} (m : Machine) (p : Pool α)
    (hQ : 0 ≤ p.cfg.QueueSize) (hMax : p.cfg.QueueSize ≤ (m.maxCap : Int))
    (hWk : p.cfg.PoolSize ≤ (m.maxWorkers : Int)) :
    ∃ p', Start m p = Except.ok p' ∧
      p'.ctx = p.ctx + 1 ∧
      p'.jobs.buf = [] ∧ p'.jobs.closed = false ∧ (p'.jobs.cap : Int) = p.cfg.QueueSize ∧
      p'.workers = p.cfg.PoolSize ∧
      (p'.wg : Int) = (p.wg : Int) + max p.cfg.PoolSize 0 ∧
      (0 < p.cfg.PoolSize → 0 < p.cfg.QueueSize →
        (p'.wg : Int) - (p.wg : Int) = p.cfg.PoolSize) ∧
      p'.watchers = p.watchers ++ [p.ctx + 1] := by
  refine ⟨_, Start_of_valid m p hQ hMax hWk, rfl, rfl, rfl, Int.toNat_of_nonneg hQ, rfl,
    ?_, ?_, rfl⟩
  · simp only [Nat.cast_add, Int.toNat_eq_max]
  · intro hW _
    simp only [Nat.cast_add, Int.toNat_eq_max]
    rw [max_eq_left hW.le]
    ring

/-- The zero pool with `sampleConfig` satisfies the hypotheses of
`Start_creates_generation`; `Start` adds its single worker. -/
theorem Start_creates_generation_witness :
    ∃ p' : Pool Nat, Start sampleMachine (zeroPool sampleConfig) = Except.ok p' ∧ p'.wg = 1 := by
  obtain ⟨p', h, _, _, _, _, _, hwg, _⟩ :=
    Start_creates_generation sampleMachine (zeroPool sampleConfig : Pool Nat) (by decide)
      (by decide) (by decide)
  refine ⟨p', h, ?_⟩
  have h0 : (zeroPool sampleConfig : Pool Nat).wg = 0 := rfl
  have h1 : (zeroPool sampleConfig : Pool Nat).cfg.PoolSize = 1 := rfl
  rw [h0, h1] at hwg
  have : (p'.wg : Int) = 1 := by simpa using hwg
  exact_mod_cast this

/-- C9, on the code: from `NewPool(sampleConfig)`, after the configured worker
count changes and the timer of the one `watchConfig` goroutine fires, two
`watchConfig` goroutines are live, both waiting on the new context.  The same
swap made by a `Submit` call leaves one.  This holds whatever the scheduler
decides. -/
theorem watchConfig_tick_swap_two_loops (taken taken' : Nat) (parked : Bool) :
    ((NewPool sampleMachine sampleConfig : Except Fault (Pool Nat)).bind fun p =>
        run sampleMachine p [Op.config { sampleConfig with PoolSize := 2 }, Op.tick 0 taken]).map
          (fun p => (p.ctx, p.watchers)) = Except.ok (2, [2, 2]) ∧
      ((NewPool sampleMachine sampleConfig : Except Fault (Pool Nat)).bind fun p =>
        run sampleMachine p
          [Op.config { sampleConfig with PoolSize := 2 }, Op.submit 7 taken' parked]).map
          (fun p => (p.ctx, p.watchers)) = Except.ok (2, [2]) := by
  have h0 : (NewPool sampleMachine sampleConfig : Except Fault (Pool Nat)) =
      Except.ok samplePool := rfl
  rw [h0]
  constructor
  · simp [Except.bind, Except.map, run, step, tick, setConfig, samplePool, scalePoolIfNeeded,
      resize, Shutdown, takenOnExit, Start, sampleConfig, sampleMachine]
  · simp [Except.bind, Except.map, run, step, Submit, send, setConfig, samplePool,
      scalePoolIfNeeded, resize, Shutdown, takenOnExit, Start, sampleConfig, sampleMachine]

/-! ## Properties of the holiday service -/

theorem fetchCountry_length (client : Client) (year : Int) (results : List CountryResult)
    (index : Nat) (code : String) :
    (fetchCountry client year results index code).length = results.length := by
  unfold fetchCountry
  rcases client year code with ⟨holidays, _ | msg⟩ <;> simp

theorem fetchCountry_other (client : Client) (year : Int) (results : List CountryResult)
    (index : Nat) (code : String) (i : Nat) (h : index ≠ i) :
    (fetchCountry client year results index code)[i]? = results[i]? := by
  unfold fetchCountry
  rcases client year code with ⟨holidays, _ | msg⟩ <;> simp [List.getElem?_set_ne h]

theorem fetchCountry_self (client : Client) (year : Int) (results : List CountryResult)
    (index : Nat) (code : String) (h : index < results.length) :
    (fetchCountry client year results index code)[index]? =
      some (match (client year code).2 with
        | some msg => { CountryCode := code, Holidays := [], Error := msg }
        | none => { CountryCode := code, Holidays := (client year code).1, Error := "" }) := by
  unfold fetchCountry
  rcases client year code with ⟨holidays, _ | msg⟩ <;> simp [List.getElem?_set, h]

theorem fetchAll_length (client : Client) (year : Int) (order : List (Nat × String)) :
    ∀ results : List CountryResult,
      (order.foldl (fun results ic => fetchCountry client year results ic.1 ic.2) results).length =
        results.length := by
  induction order with
  | nil => intro results; rfl
  | cons ic order ih =>
    intro results
    rw [List.foldl_cons, ih, fetchCountry_length]

theorem fetchAll_other (client : Client) (year : Int) (order : List (Nat × String)) (i : Nat)
    (hi : i ∉ order.map Prod.fst) :
    ∀ results : List CountryResult,
      (order.foldl (fun results ic => fetchCountry client year results ic.1 ic.2) results)[i]? =
        results[i]? := by
  induction order with
  | nil => intro results; rfl
  | cons ic order ih =>
    intro results
    simp only [List.map_cons, List.mem_cons, not_or] at hi
    rw [List.foldl_cons, ih hi.2, fetchCountry_other _ _ _ _ _ _ (fun h => hi.1 h.symm)]

theorem fetchAll_self (client : Client) (year : Int) (order : List (Nat × String)) (i : Nat)
    (code : String) (hmem : (i, code) ∈ order) (hnd : (order.map Prod.fst).Nodup) :
    ∀ results : List CountryResult, i < results.length →
      (order.foldl (fun results ic => fetchCountry client year results ic.1 ic.2) results)[i]? =
        some (match (client year code).2 with
          | some msg => { CountryCode := code, Holidays := [], Error := msg }
          | none => { CountryCode := code, Holidays := (client year code).1, Error := "" }) := by
  induction order with
  | nil => simp at hmem
  | cons ic order ih =>
    intro results hlen
    simp only [List.map_cons, List.nodup_cons] at hnd
    rw [List.foldl_cons]
    rcases List.mem_cons.mp hmem with h | h
    · subst h
      rw [fetchAll_other client year order i hnd.1, fetchCountry_self _ _ _ _ _ hlen]
    · exact ih h hnd.2 _ (by rw [fetchCountry_length]; exact hlen)

/-- C10: for every year, every list of country codes and every client,
whatever the order in which the goroutines run, `GetHolidaysForCountries`
returns a list as long as `countryCodes` in which, at every index `i`, the
`CountryCode` is `countryCodes[i]`; when the client returns an error for that
code, `Error` is its message and `Holidays` is empty; when it returns no
error, `Holidays` is what the client returned and `Error` is empty. -/
theorem GetHolidaysForCountries_results (client : Client) (year : Int)
    (countryCodes : List String) (order : List (Nat × String))
    (hOrder : order.Perm countryCodes.enum) :
    (GetHolidaysForCountries client year countryCodes order).length = countryCodes.length ∧
      ∀ (i : Nat) (code : String), countryCodes[i]? = some code →
        ∃ r, (GetHolidaysForCountries client year countryCodes order)[i]? = some r ∧
          r.CountryCode = code ∧
          (∀ msg, (client year code).2 = some msg → r.Error = msg ∧ r.Holidays = []) ∧
          ((client year code).2 = none → r.Holidays = (client year code).1 ∧ r.Error = "") := by
  unfold GetHolidaysForCountries
  refine ⟨by simp [fetchAll_length], ?_⟩
  intro i code hi
  have hmem : (i, code) ∈ order :=
    hOrder.mem_iff.mpr (List.mk_mem_enum_iff_getElem?.mpr hi)
  have hnd : (order.map Prod.fst).Nodup := by
    rw [(hOrder.map Prod.fst).nodup_iff, List.enum_map_fst]
    exact List.nodup_range _
  have hlt : i < (List.replicate countryCodes.length zeroResult).length := by
    rw [List.length_replicate]
    exact (List.getElem?_eq_some_iff.mp hi).1
  refine ⟨_, fetchAll_self client year order i code hmem hnd _ hlt, ?_, ?_, ?_⟩
  · cases (client year code).2 <;> rfl
  · intro msg h; rw [h]; exact ⟨rfl, rfl⟩
  · intro h; rw [h]; exact ⟨rfl, rfl⟩

/-- The order of `range countryCodes` itself satisfies the hypothesis of
`GetHolidaysForCountries_results`; with a duplicated code and a failing one the
result has three entries. -/
theorem GetHolidaysForCountries_results_witness :
    (GetHolidaysForCountries sampleClient 2025 ["CA", "XX", "CA"]
        (["CA", "XX", "CA"] : List String).enum).length = 3 :=
  (GetHolidaysForCountries_results sampleClient 2025 ["CA", "XX", "CA"]
    (["CA", "XX", "CA"] : List String).enum (List.Perm.refl _)).1

/-! ## Properties of the holidays handler -/

theorem Atoi_eq_decimalValue (s : String) :
    Atoi s = (decimalValue s).bind (fun v => if fitsInt v then some v else none) := by
  unfold Atoi decimalValue fitsInt
  cases s.toList with
  | nil => rfl
  | cons ch rest =>
    simp only
    generalize (if ch = '-' ∨ ch = '+' then rest else ch :: rest) = digits
    by_cases hd : digits = []
    · simp [hd]
    · simp only [if_neg hd]
      cases parseDigits digits 0 with
      | none => rfl
      | some n => simp

theorem validCountry_iff (country : String) : validCountry country = true ↔ country.length = 2 := by
  unfold validCountry
  simp only [Bool.and_eq_true, decide_eq_true_eq]
  constructor
  · exact fun h => h.2
  · intro h
    refine ⟨?_, h⟩
    intro he
    rw [he] at h
    exact absurd h (by decide)

theorem validateStruct_iff (year : Int) (countries : List String) :
    validateStruct { Year := year, Countries := countries } = true ↔
      1900 ≤ year ∧ year ≤ 2100 ∧ countries ≠ [] ∧ ∀ c ∈ countries, c.length = 2 := by
  unfold validateStruct validYear validCountries
  simp only [Bool.and_eq_true, decide_eq_true_eq, List.all_eq_true, validCountry_iff]
  constructor
  · rintro ⟨⟨⟨_, h1⟩, h2⟩, h3, h4⟩
    refine ⟨h1, h2, ?_, h4⟩
    intro he
    rw [he] at h3
    simp at h3
  · rintro ⟨h1, h2, h3, h4⟩
    refine ⟨⟨⟨by omega, h1⟩, h2⟩, ?_, h4⟩
    cases countries with
    | nil => exact absurd rfl h3
    | cons c cs => simp

theorem queryGet_missing (r : Request) (key : String) (h : ∀ kv ∈ r.Query, kv.1 ≠ key) :
    queryGet r key = "" := by
  have : r.Query.filter (fun kv => kv.1 = key) = [] := by
    rw [List.filter_eq_nil_iff]
    intro kv hkv
    simpa using h kv hkv
  simp [queryGet, queryValues, this]

/-- C11, as stated, fails: for the GET request with `year=9223372036854775808`
and `country=CA`, the year is a decimal integer and a country is given, so the
claim gives 422 for a year outside 1900..2100; the handler answers 400, since
`strconv.Atoi` fails on a value that does not fit the `int`. -/
theorem ServeHTTP_year_beyond_int :
    decimalValue "9223372036854775808" = some 9223372036854775808 ∧
      queryValues ⟨"GET", [("year", "9223372036854775808"), ("country", "CA")]⟩ "country" =
        ["CA"] ∧
      (ServeHTTP sampleService
        ⟨"GET", [("year", "9223372036854775808"), ("country", "CA")]⟩).status = 400 ∧
      (ServeHTTP sampleService
        ⟨"GET", [("year", "9223372036854775808"), ("country", "CA")]⟩).status ≠ 422 := by
  decide

/-- C11, amended: for every GET request, the status is 400, and the service is
not called, if the `year` parameter is missing, is not a decimal integer, is a
decimal integer that does not fit the 64-bit `int`, or if no `country`
parameter is given; otherwise it is 422, and the service is not called, if the
year is outside 1900..2100 or some country code is not exactly 2 characters
long; otherwise it is 200 with a body holding the requested year and the
results of the service, called once with that year and those codes.  For every
request whose method is not GET the status is 405 and the service is not
called. -/
theorem ServeHTTP_status (service : Int → List String → List CountryResult) (r : Request) :
    (r.Method ≠ "GET" →
        (ServeHTTP service r).status = 405 ∧ (ServeHTTP service r).serviceCall = none) ∧
      (r.Method = "GET" →
        ((∀ kv ∈ r.Query, kv.1 ≠ "year") →
          (ServeHTTP service r).status = 400 ∧ (ServeHTTP service r).serviceCall = none) ∧
        (decimalValue (queryGet r "year") = none →
          (ServeHTTP service r).status = 400 ∧ (ServeHTTP service r).serviceCall = none) ∧
        (∀ v, decimalValue (queryGet r "year") = some v → ¬ fitsInt v →
          (ServeHTTP service r).status = 400 ∧ (ServeHTTP service r).serviceCall = none) ∧
        (queryValues r "country" = [] →
          (ServeHTTP service r).status = 400 ∧ (ServeHTTP service r).serviceCall = none) ∧
        (∀ v, decimalValue (queryGet r "year") = some v → fitsInt v →
          queryValues r "country" ≠ [] →
          ((v < 1900 ∨ 2100 < v ∨ ∃ c ∈ queryValues r "country", c.length ≠ 2) →
            (ServeHTTP service r).status = 422 ∧ (ServeHTTP service r).serviceCall = none) ∧
          ((1900 ≤ v ∧ v ≤ 2100 ∧ ∀ c ∈ queryValues r "country", c.length = 2) →
            ServeHTTP service r =
              { status := 200,
                body := Body.holidays v (service v (queryValues r "country")),
                serviceCall := some (v, queryValues r "country") }))) := by
  have hnone : r.Method = "GET" → decimalValue (queryGet r "year") = none →
      (ServeHTTP service r).status = 400 ∧ (ServeHTTP service r).serviceCall = none := by
    intro hm hd
    simp [ServeHTTP, hm, Atoi_eq_decimalValue, hd]
  refine ⟨?_, fun hm => ⟨?_, hnone hm, ?_, ?_, ?_⟩⟩
  · intro hm
    simp [ServeHTTP, hm]
  · intro hmiss
    apply hnone hm
    rw [queryGet_missing r "year" hmiss]
    rfl
  · intro v hd hfit
    simp [ServeHTTP, hm, Atoi_eq_decimalValue, hd, hfit]
  · intro hc
    cases hA : Atoi (queryGet r "year") with
    | none => simp [ServeHTTP, hm, hA]
    | some year => simp [ServeHTTP, hm, hA, hc]
  · intro v hd hfit hc
    have hA : Atoi (queryGet r "year") = some v := by
      simp [Atoi_eq_decimalValue, hd, hfit]
    have hlen : ¬ (queryValues r "country").length = 0 := by
      intro h; exact hc (List.length_eq_zero.mp h)
    constructor
    · intro hbad
      have hv : validateStruct { Year := v, Countries := queryValues r "country" } = false := by
        rw [← Bool.not_eq_true, validateStruct_iff]
        rintro ⟨h1, h2, _, h4⟩
        rcases hbad with h | h | ⟨c, hcm, hcl⟩
        · omega
        · omega
        · exact hcl (h4 c hcm)
      simp [ServeHTTP, hm, hA, hlen, hv]
    · intro hgood
      have hv : validateStruct { Year := v, Countries := queryValues r "country" } = true :=
        (validateStruct_iff _ _).mpr ⟨hgood.1, hgood.2.1, hc, hgood.2.2⟩
      simp [ServeHTTP, hm, hA, hlen, hv]

set_option maxRecDepth 100000 in
/-- C12, on the code: under the policy `maxAttempts = 36`,
`initialTimeout = maxTimeout = 1s` and a job that always fails, the first 35
attempts run under 1s; after attempt 35 the product `1s * 2^34` wraps to
-1266874889709551616ns, which is not above `maxTimeOut`, so it becomes the
timeout: the last sleep and attempt 36 get a negative duration, below
`initialTimeout`, and the timeouts are not non-decreasing. -/
theorem processJobWithRetry_timeout_wraps (ovf : Nat → Int) :
    (processJobWithRetry ovf ⟨36, 1, 1⟩ alwaysFails).map attemptTimeouts =
        some (List.replicate 35 (1 * Second) ++ [-1266874889709551616]) ∧
      (processJobWithRetry ovf ⟨36, 1, 1⟩ alwaysFails).map sleepDurations =
        some (List.replicate 34 (1 * Second) ++ [-1266874889709551616]) ∧
      (-1266874889709551616 : Int) < 1 * Second := by
  refine ⟨rfl, rfl, by decide⟩

end KlnTest
